import Mathlib

/-
Verification of the microstrip simulation script (mlinetest.py) against its
specification.  The script itself is configuration glue; the meshing,
refinement, solving and sweep logic live in the external simulation engine.
Definitions below are a shallow embedding: values and call structure are
taken directly from the script; engine behaviour that the script invokes is
modelled from the specification, as marked in the doc comments.
Exact rational arithmetic (ℚ) is used; every quantity involved is exactly
representable, so no floating-point tolerance issues arise.
-/

namespace MLineTest

/-! ### Constants from SIMULATION_PARAMS (mlinetest.py lines 15-35) -/

def TRACK_W : ℚ := 3

def TRACK_T : ℚ := 0.05

def SUB_T : ℚ := 1.55

def SUB_L : ℚ := 100

def F_START : ℚ := 100e6

def F_STOP : ℚ := 5e9

def F_STEP : ℚ := 100e6

def ep_r : ℚ := 4.5

/-! ### Geometry compiler (PCB path building, lines 63-112)

The path builder state and commands mirror the fluent PCB API used by the
script: new / straight / store.  Compiled segments carry their width and
direction; margins enter only in determine_bounds. -/

structure Rect2 where
  xmin : ℚ
  xmax : ℚ
  ymin : ℚ
  ymax : ℚ
deriving DecidableEq

/-- r lies inside s, as a product of closed intervals. -/
def RectSubset (r s : Rect2) : Prop :=
  s.xmin ≤ r.xmin ∧ r.xmax ≤ s.xmax ∧ s.ymin ≤ r.ymin ∧ r.ymax ≤ s.ymax

instance (r s : Rect2) : Decidable (RectSubset r s) := by
  unfold RectSubset; infer_instance

def Rect2.union (a b : Rect2) : Rect2 :=
  ⟨min a.xmin b.xmin, max a.xmax b.xmax, min a.ymin b.ymin, max a.ymax b.ymax⟩

/-- Bounding box of a list of rectangles (the script always has one). -/
def bboxList : List Rect2 → Rect2
  | [] => ⟨0, 0, 0, 0⟩
  | r :: rs => rs.foldl Rect2.union r

structure Margins where
  left : ℚ
  top : ℚ
  right : ℚ
  bottom : ℚ
deriving DecidableEq

def MarginsNonneg (m : Margins) : Prop :=
  0 ≤ m.left ∧ 0 ≤ m.top ∧ 0 ≤ m.right ∧ 0 ≤ m.bottom

def MarginsLe (m n : Margins) : Prop :=
  m.left ≤ n.left ∧ m.top ≤ n.top ∧ m.right ≤ n.right ∧ m.bottom ≤ n.bottom

/-- Expand a rectangle by margins: left/right along -x/+x, bottom/top along
-y/+y (the trace runs in +y). -/
def expandRect (r : Rect2) (m : Margins) : Rect2 :=
  ⟨r.xmin - m.left, r.xmax + m.right, r.ymin - m.bottom, r.ymax + m.top⟩

/-- A compiled straight trace segment: endpoints, unit direction, width. -/
structure Segment where
  x1 : ℚ
  y1 : ℚ
  x2 : ℚ
  y2 : ℚ
  dx : ℚ
  dy : ℚ
  width : ℚ
deriving DecidableEq

/-- Footprint of a segment: the trace width extends half to each side,
perpendicular to the direction of travel. -/
def Segment.bbox (s : Segment) : Rect2 :=
  ⟨min s.x1 s.x2 - s.width / 2 * |s.dy|, max s.x1 s.x2 + s.width / 2 * |s.dy|,
   min s.y1 s.y2 - s.width / 2 * |s.dx|, max s.y1 s.y2 + s.width / 2 * |s.dx|⟩

/-- Path-construction commands used by the script (lines 75-77):
pcb.new(x, y, width, direction), .straight(length), .store(name). -/
inductive PathCmd where
  | new (x y width dx dy : ℚ)
  | straight (len : ℚ)
  | store (name : String)
deriving DecidableEq

structure PathState where
  x : ℚ
  y : ℚ
  dx : ℚ
  dy : ℚ
  width : ℚ
  segs : List Segment
  nodes : List (String × ℚ × ℚ)
deriving DecidableEq

def stepCmd (s : PathState) : PathCmd → PathState
  | .new x y w dx dy => { s with x := x, y := y, width := w, dx := dx, dy := dy }
  | .straight len =>
      { s with x := s.x + len * s.dx, y := s.y + len * s.dy,
               segs := s.segs ++ [⟨s.x, s.y, s.x + len * s.dx, s.y + len * s.dy, s.dx, s.dy, s.width⟩] }
  | .store n => { s with nodes := s.nodes ++ [(n, s.x, s.y)] }

def initState : PathState := ⟨0, 0, 0, 0, 0, [], []⟩

/-- pcb.compile_paths() (line 84): run all path commands, return the
compiled trace segments.  Takes no margin information. -/
def compile_paths (cmds : List PathCmd) : List Segment :=
  (cmds.foldl stepCmd initState).segs

/-- The named checkpoints recorded by .store during path building. -/
def pathNodes (cmds : List PathCmd) : List (String × ℚ × ℚ) :=
  (cmds.foldl stepCmd initState).nodes

/-- pcb.load(name): look up a stored node. -/
def loadNode (cmds : List PathCmd) (name : String) : Option (ℚ × ℚ) :=
  ((pathNodes cmds).find? (fun p => p.1 == name)).map (fun p => p.2)

/-- Modelled from the spec: pcb.determine_bounds (line 88; the PCB class is
in the external engine).  The overall domain is the bounding box of the
compiled geometry, expanded by the four configured margins. -/
def determine_bounds (segs : List Segment) (m : Margins) : Rect2 :=
  expandRect (bboxList (segs.map Segment.bbox)) m

/-- The script's compile-then-bound sequence: compile_paths first (line 84,
no margins), then determine_bounds with margins (lines 88-93). -/
structure CompiledBoard where
  trace : List Segment
  bounds : Rect2
deriving DecidableEq

def buildBoard (cmds : List PathCmd) (m : Margins) : CompiledBoard :=
  ⟨compile_paths cmds, determine_bounds (compile_paths cmds) m⟩

/-- The script's path commands (lines 75-77): start at (0,0) with width
TRACK_W heading (0,1), store p1, go straight SUB_L, store p2. -/
def scriptPathCmds : List PathCmd :=
  [.new 0 0 TRACK_W 0 1, .store "p1", .straight SUB_L, .store "p2"]

/-- The script's margins (lines 88-93). -/
def scriptMargins : Margins :=
  ⟨5 * 10 * TRACK_W / 2, 0, 5 * 10 * TRACK_W / 2, 0⟩

def scriptSegs : List Segment := compile_paths scriptPathCmds

def scriptBounds : Rect2 := determine_bounds scriptSegs scriptMargins

/-- A modal port face: held at constant y, spanning an x-interval of the
given width centred on the node, rising from the ground plane (z = 0) to
the given height. -/
structure PortFace where
  y : ℚ
  xmin : ℚ
  xmax : ℚ
  zmin : ℚ
  zmax : ℚ
deriving DecidableEq

/-- Modelled from the spec: pcb.modal_port (lines 99-108; engine code).
A port surface of the given width and height erected at a stored node. -/
def modal_port (node : ℚ × ℚ) (height width : ℚ) : PortFace :=
  ⟨node.2, node.1 - width / 2, node.1 + width / 2, 0, height⟩

def portHeight : ℚ := 6 * SUB_T

def portWidth : ℚ := 10 * TRACK_W

/-- pcb.generate_air height (line 112). -/
def airHeight : ℚ := 3 * 6 * SUB_T

/-- Top of the simulation domain: substrate top plus the air box. -/
def domainTopZ : ℚ := SUB_T + airHeight

/-! ### Frequency range (lines 121-126) -/

/-- npoints = (F_STOP - F_START) / F_STEP + 1 (lines 121-123). -/
def npoints : ℚ := (F_STOP - F_START) / F_STEP + 1

/-- Python int(): truncation toward zero. -/
def pyInt (q : ℚ) : ℤ := if 0 ≤ q then ⌊q⌋ else -⌊-q⌋

/-- Modelled from the spec: m.mw.set_frequency_range (lines 124-126; engine
code).  Npoints uniformly spaced frequency points from fmin to fmax
inclusive. -/
def linspace (fmin fmax : ℚ) (n : ℕ) : List ℚ :=
  (List.range n).map (fun k : ℕ => fmin + (k : ℚ) * ((fmax - fmin) / ((n : ℚ) - 1)))

/-- The sweep's frequency points as configured by the script. -/
def sweepFreqs : List ℚ := linspace F_START F_STOP (pyInt npoints).toNat

/-- The frequency appearing in the adaptive_mesh_refinement call on
line 155 (the call itself is commented out in the script). -/
def refineFrequency : ℚ := 2.5e9

/-- The refinement frequency claimed by the adjacent source comment on
line 151 ("We refine at 6GHz because this is in the pass-band"). -/
def commentRefineFrequency : ℚ := 6e9

/-! ### Pipeline stages (the script's execution order)

The stages the script actually executes, in source order: compile_paths
(line 84), determine_bounds (line 88), generate_mesh (line 132), run_sweep
(line 161), post-processing (lines 169-172).  The
adaptive_mesh_refinement call on line 155 is commented out, so it is
absent from the executed trace. -/

inductive Stage where
  | compileGeometry
  | boundsStage
  | generateMesh
  | adaptiveRefinement
  | sweepRun
  | postProcess
deriving DecidableEq

def scriptStages : List Stage :=
  [.compileGeometry, .boundsStage, .generateMesh, .sweepRun, .postProcess]

/-! ### Sweep orchestrator, parallel facet (run_sweep, line 161) -/

/-- Ascending-frequency order on collected (frequency, result) pairs. -/
def freqLE {α : Type} (a b : ℚ × α) : Prop := a.1 ≤ b.1

instance {α : Type} : DecidableRel (fun a b => freqLE (α := α) a b) :=
  fun a b => inferInstanceAs (Decidable (a.1 ≤ b.1))

instance {α : Type} : IsTotal (ℚ × α) freqLE :=
  ⟨fun a b => le_total a.1 b.1⟩

instance {α : Type} : IsTrans (ℚ × α) freqLE :=
  ⟨fun _ _ _ hab hbc => le_trans hab hbc⟩

/-- Split a list into contiguous chunks of at most k elements; the fuel
argument (instantiated with the list length) bounds the recursion. -/
def splitChunksGo {α : Type} (k : ℕ) : ℕ → List α → List (List α)
  | _, [] => []
  | 0, l => [l]
  | fuel + 1, x :: xs => ((x :: xs).take k) :: splitChunksGo k fuel ((x :: xs).drop k)

def splitChunks {α : Type} (k : ℕ) (l : List α) : List (List α) :=
  splitChunksGo k l.length l

/-- How many chunks (one per worker task) the orchestrator creates for a
given frequency list and worker count. -/
def numChunks (freqs : List ℚ) (nWorkers : ℕ) : ℕ :=
  (splitChunks ((freqs.length + nWorkers - 1) / nWorkers) freqs).length

/-- Modelled from the spec: m.mw.run_sweep (line 161; the Sweep
Orchestrator is engine code, spec section 4.5/5).  Frequency points are
partitioned into contiguous chunks, one per worker; each worker solves its
chunk (the Field Solver is a pure function of the frequency once mesh,
materials and ports are fixed, all abstracted into solve); worker results
are collected in the order the workers finish (finishOrder) and re-sorted
into ascending frequency order. -/
def collectResults {α : Type} (solve : ℚ → α) (chunks : List (List ℚ))
    (finishOrder : List ℕ) : List (ℚ × α) :=
  (finishOrder.map (fun w => (chunks.getD w []).map (fun f => (f, solve f)))).flatten

def run_sweep {α : Type} (solve : ℚ → α) (freqs : List ℚ) (nWorkers : ℕ)
    (finishOrder : List ℕ) : List (ℚ × α) :=
  List.insertionSort freqLE
    (collectResults solve (splitChunks ((freqs.length + nWorkers - 1) / nWorkers) freqs)
      finishOrder)

/-! ### Sweep orchestrator, error-handling facet (spec sections 4.5 and 7) -/

structure SweepReport (α : Type) where
  grid : List (ℚ × Option α)
  failedPoints : List ℚ
  failedCount : ℕ
deriving DecidableEq

/-- Modelled from the spec: run_sweep error handling (spec sections 4.5
and 7; engine code).  solve returns none when the Field Solver raises
SolveError at that frequency.  Every frequency point is attempted; a
failed point's grid entry is marked invalid (none) and the point is
recorded; at the end the report carries the list and count of failed
points. -/
def run_sweep_fallible {α : Type} (solve : ℚ → Option α) (freqs : List ℚ) :
    SweepReport α :=
  ⟨freqs.map (fun f => (f, solve f)),
   freqs.filter (fun f => (solve f).isNone),
   (freqs.filter (fun f => (solve f).isNone)).length⟩

/-! ### Adaptive refinement controller (spec sections 4.4, 7, 8) -/

inductive RefineStatus where
  | converged
  | earlyTerminated
deriving DecidableEq

structure AMRResult (Mesh : Type) where
  mesh : Mesh
  status : RefineStatus
  errors : List ℚ
deriving DecidableEq

/-- Did the freshly computed error estimate increase over the previous
iteration's estimate? -/
def errIncreased (prevErr : Option ℚ) (e : ℚ) : Bool :=
  match prevErr with
  | none => false
  | some p => decide (p < e)

/-- Modelled from the spec: the Adaptive Refinement Controller loop
(m.adaptive_mesh_refinement, line 155; engine code; spec sections 4.4, 7,
8).  solveErr returns the global error estimate for a mesh, or none when
the Field Solver fails with SolveError; refine is the Mesh Generator's
local-subdivision step.  The loop keeps the last successfully solved mesh
(lastGood); on a solve failure, or if the error estimate increases, it
halts early retaining that mesh with a warning-level earlyTerminated
status; it converges when the error drops below tol, and also stops (as
converged, budget exhausted) when the iteration budget runs out.  errors
lists the accepted error estimates in iteration order. -/
def amrGo {Mesh : Type} (solveErr : Mesh → Option ℚ) (refine : Mesh → Mesh)
    (tol : ℚ) : ℕ → Mesh → Mesh → Option ℚ → AMRResult Mesh
  | 0, lastGood, _, _ => ⟨lastGood, .converged, []⟩
  | fuel + 1, lastGood, cand, prevErr =>
    match solveErr cand with
    | none => ⟨lastGood, .earlyTerminated, []⟩
    | some e =>
      if errIncreased prevErr e then ⟨lastGood, .earlyTerminated, []⟩
      else if e < tol then ⟨cand, .converged, [e]⟩
      else
        ⟨(amrGo solveErr refine tol fuel cand (refine cand) (some e)).mesh,
         (amrGo solveErr refine tol fuel cand (refine cand) (some e)).status,
         e :: (amrGo solveErr refine tol fuel cand (refine cand) (some e)).errors⟩

/-- Modelled from the spec: entry point of the adaptive refinement
routine, starting from the initial mesh with no previous error. -/
def adaptive_mesh_refinement {Mesh : Type} (solveErr : Mesh → Option ℚ)
    (refine : Mesh → Mesh) (tol : ℚ) (maxIter : ℕ) (m0 : Mesh) : AMRResult Mesh :=
  amrGo solveErr refine tol maxIter m0 m0 none

/-! ### Ports and the solve result (lines 144-145, 169-172) -/

/-- The port indices bound by the script: ModalPort(mp1, 1) and
ModalPort(mp2, 2) (lines 144-145). -/
def portIndices : List ℕ := [1, 2]

def numPorts : ℕ := portIndices.length

/-- Modelled from the spec: the Field Solver's Solve Result (spec
sections 3 and 4.3; engine code).  For each frequency a square
S-parameter matrix of dimension equal to the number of defined ports;
the complex entry values come from the external numerical solve,
abstracted as sij (real and imaginary part as rationals). -/
def fieldSolve (sij : ℚ → ℕ → ℕ → ℚ × ℚ) (nports : ℕ) (f : ℚ) :
    List (List (ℚ × ℚ)) :=
  (List.range nports).map (fun i => (List.range nports).map (fun j => sij f i j))

/-- The 1-based S-parameter lookup g.S(i, j) (lines 171-172). -/
def sEntry (m : List (List (ℚ × ℚ))) (i j : ℕ) : Option (ℚ × ℚ) :=
  (m[i - 1]?).bind (fun row => row[j - 1]?)

/-! ### Concrete instantiations used to exhibit the general theorems -/

/-- A sample per-frequency solver that fails at frequency 2. -/
def c2Solve : ℚ → Option ℚ := fun f => if f = 2 then none else some 7

/-- A sample decreasing error-estimate sequence over mesh generations. -/
def c6ErrTab : ℕ → ℚ
  | 0 => 8
  | 1 => 7
  | 2 => 6
  | _ => 5

/-- A sample refinement solver that fails at the third mesh generation. -/
def c4SolveTab : ℕ → Option ℚ
  | 0 => some 10
  | 1 => some 9
  | _ => none

/-- The error estimates the sample refinement solver reports. -/
def c4ErrTab : ℕ → ℚ
  | 0 => 10
  | 1 => 9
  | _ => 0

/-- A sample per-mesh sweep solver. -/
def c4Sweep : ℕ → ℚ → Option ℚ := fun _ _ => some 0

/-! ## Theorems -/

/-! ### Sweep orchestrator: worker-count and finish-order invariance (C1) -/

theorem splitChunksGo_flatten {α : Type} (k : ℕ) :
    ∀ (fuel : ℕ) (l : List α), (splitChunksGo k fuel l).flatten = l := by
  intro fuel
  induction fuel with
  | zero =>
    intro l
    cases l with
    | nil => simp [splitChunksGo]
    | cons x xs => simp [splitChunksGo]
  | succ n ih =>
    intro l
    cases l with
    | nil => simp [splitChunksGo]
    | cons x xs =>
      simp only [splitChunksGo, List.flatten_cons]
      rw [ih]
      exact List.take_append_drop k (x :: xs)

theorem splitChunks_flatten {α : Type} (k : ℕ) (l : List α) :
    (splitChunks k l).flatten = l :=
  splitChunksGo_flatten k l.length l

theorem map_getD_range {β γ : Type} (f : List β → γ) (d : List β) :
    ∀ (L : List (List β)),
      (List.range L.length).map (fun w => f (L.getD w d)) = L.map f := by
  intro L
  induction L with
  | nil => simp
  | cons x xs ih =>
    have hcomp : ((fun w => f ((x :: xs).getD w d)) ∘ Nat.succ)
        = fun w => f (xs.getD w d) := by
      funext w
      simp [List.getD_cons_succ]
    simp only [List.length_cons, List.range_succ_eq_map, List.map_cons, List.map_map,
      List.getD_cons_zero, hcomp, ih]

theorem collectResults_perm {α : Type} (solve : ℚ → α) (k : ℕ) (freqs : List ℚ)
    (ord : List ℕ) (h : ord.Perm (List.range (splitChunks k freqs).length)) :
    (collectResults solve (splitChunks k freqs) ord).Perm
      (freqs.map (fun f => (f, solve f))) := by
  unfold collectResults
  have h1 := (h.map
    (fun w => ((splitChunks k freqs).getD w []).map (fun f => (f, solve f)))).flatten
  rw [map_getD_range (fun chunk => chunk.map (fun f => (f, solve f))) []
    (splitChunks k freqs)] at h1
  rw [← List.map_flatten] at h1
  rw [splitChunks_flatten] at h1
  exact h1

theorem rebuild_of_snd_eq {α : Type} (solve : ℚ → α) :
    ∀ (l : List (ℚ × α)), (∀ p ∈ l, p.2 = solve p.1) →
      l = (l.map Prod.fst).map (fun f => (f, solve f)) := by
  intro l
  induction l with
  | nil => intro _; rfl
  | cons p t ih =>
    intro h
    obtain ⟨f, v⟩ := p
    have hp : v = solve f := h (f, v) (List.mem_cons_self _ _)
    subst hp
    simp only [List.map_cons]
    exact congrArg (List.cons (f, solve f))
      (ih (fun q hq => h q (List.mem_cons_of_mem _ hq)))

theorem insertionSort_canonical {α : Type} (solve : ℚ → α) (l₁ l₂ : List (ℚ × α))
    (hperm : l₁.Perm l₂) (hv : ∀ p ∈ l₁, p.2 = solve p.1) :
    List.insertionSort freqLE l₁ = List.insertionSort freqLE l₂ := by
  have hp : (List.insertionSort freqLE l₁).Perm (List.insertionSort freqLE l₂) :=
    (List.perm_insertionSort freqLE l₁).trans
      (hperm.trans (List.perm_insertionSort freqLE l₂).symm)
  have hs₁ : List.Sorted freqLE (List.insertionSort freqLE l₁) :=
    List.sorted_insertionSort freqLE l₁
  have hs₂ : List.Sorted freqLE (List.insertionSort freqLE l₂) :=
    List.sorted_insertionSort freqLE l₂
  have hm₁ : List.Sorted (· ≤ ·) ((List.insertionSort freqLE l₁).map Prod.fst) :=
    List.Pairwise.map Prod.fst (fun _ _ hab => hab) hs₁
  have hm₂ : List.Sorted (· ≤ ·) ((List.insertionSort freqLE l₂).map Prod.fst) :=
    List.Pairwise.map Prod.fst (fun _ _ hab => hab) hs₂
  have heq : (List.insertionSort freqLE l₁).map Prod.fst
      = (List.insertionSort freqLE l₂).map Prod.fst :=
    List.eq_of_perm_of_sorted (hp.map Prod.fst) hm₁ hm₂
  have hv₁ : ∀ p ∈ List.insertionSort freqLE l₁, p.2 = solve p.1 :=
    fun p hmem => hv p ((List.perm_insertionSort freqLE l₁).subset hmem)
  have hv₂ : ∀ p ∈ List.insertionSort freqLE l₂, p.2 = solve p.1 :=
    fun p hmem => hv p (hperm.symm.subset ((List.perm_insertionSort freqLE l₂).subset hmem))
  calc List.insertionSort freqLE l₁
      = ((List.insertionSort freqLE l₁).map Prod.fst).map (fun f => (f, solve f)) :=
        rebuild_of_snd_eq solve _ hv₁
    _ = ((List.insertionSort freqLE l₂).map Prod.fst).map (fun f => (f, solve f)) := by
        rw [heq]
    _ = List.insertionSort freqLE l₂ := (rebuild_of_snd_eq solve _ hv₂).symm

/-- C1: over a fixed converged mesh, ports and sweep spec (all folded into
the pure per-frequency solve function), running the Sweep Orchestrator
with any worker count n ≥ 1 and any order of worker completion produces
exactly the same S-parameter grid as the 1-worker run, and the grid's
frequency axis is always sorted in ascending order. -/
theorem run_sweep_worker_invariance {α : Type} (solve : ℚ → α) (freqs : List ℚ)
    (n : ℕ) (ord : List ℕ) (hn : 1 ≤ n)
    (hord : ord.Perm (List.range (numChunks freqs n))) :
    run_sweep solve freqs n ord =
      run_sweep solve freqs 1 (List.range (numChunks freqs 1))
    ∧ List.Sorted (· ≤ ·) ((run_sweep solve freqs n ord).map Prod.fst) := by
  have hc₁ : (collectResults solve
      (splitChunks ((freqs.length + n - 1) / n) freqs) ord).Perm
      (freqs.map (fun f => (f, solve f))) :=
    collectResults_perm solve _ freqs ord hord
  have hc₂ : (collectResults solve
      (splitChunks ((freqs.length + 1 - 1) / 1) freqs)
      (List.range (numChunks freqs 1))).Perm
      (freqs.map (fun f => (f, solve f))) :=
    collectResults_perm solve _ freqs _ (List.Perm.refl _)
  have hv : ∀ p ∈ collectResults solve
      (splitChunks ((freqs.length + n - 1) / n) freqs) ord, p.2 = solve p.1 := by
    intro p hp
    obtain ⟨f, _, rfl⟩ := List.mem_map.mp (hc₁.subset hp)
    rfl
  constructor
  · exact insertionSort_canonical solve _ _ (hc₁.trans hc₂.symm) hv
  · exact List.Pairwise.map Prod.fst (fun _ _ hab => hab)
      (List.sorted_insertionSort freqLE _)

/-- C1 witness: a 2-worker run with the workers finishing in reverse
order agrees with the 1-worker run and is frequency-sorted. -/
theorem run_sweep_worker_invariance_witness :
    ((1 : ℕ) ≤ 2 ∧ ([1, 0] : List ℕ).Perm (List.range (numChunks [3, 1, 2] 2)))
    ∧ (run_sweep (fun f => f) [3, 1, 2] 2 [1, 0] =
        run_sweep (fun f => f) [3, 1, 2] 1 (List.range (numChunks [3, 1, 2] 1))
      ∧ List.Sorted (· ≤ ·) ((run_sweep (fun f => f) [3, 1, 2] 2 [1, 0]).map Prod.fst)) :=
  ⟨⟨by decide, by decide⟩,
   run_sweep_worker_invariance (fun f => f) [3, 1, 2] 2 [1, 0] (by decide) (by decide)⟩

/-! ### Frequency range (C5, C9) and pipeline order (C3) -/

theorem linspace_length (fmin fmax : ℚ) (n : ℕ) : (linspace fmin fmax n).length = n := by
  rw [linspace, List.length_map, List.length_range]

theorem linspace_getD (fmin fmax : ℚ) (n i : ℕ) (h : i < n) :
    (linspace fmin fmax n).getD i 0
      = fmin + i * ((fmax - fmin) / ((n : ℚ) - 1)) := by
  rw [linspace, List.getD_eq_getElem?_getD, List.getElem?_map, List.getElem?_range h]
  rfl

theorem npoints_eq : npoints = 50 := by
  norm_num [npoints, F_STOP, F_START, F_STEP]

theorem pyInt_npoints_eq : pyInt npoints = 50 := by
  rw [pyInt, npoints_eq]
  norm_num

theorem sweepFreqs_eq : sweepFreqs = linspace F_START F_STOP 50 := by
  rw [sweepFreqs, pyInt_npoints_eq]
  rfl

theorem sweepFreqs_getD (i : ℕ) (h : i < 50) :
    sweepFreqs.getD i 0 = F_START + i * F_STEP := by
  rw [sweepFreqs_eq, linspace_getD F_START F_STOP 50 i h]
  have hstep : (F_STOP - F_START) / (((50 : ℕ) : ℚ) - 1) = F_STEP := by
    norm_num [F_STOP, F_START, F_STEP]
  rw [hstep]

/-- C5: the configured F_START, F_STOP, F_STEP give
(F_STOP - F_START)/F_STEP + 1 = 50 exactly, int() truncation yields 50,
and the resulting sweep has exactly 50 uniformly spaced points, 100 MHz
apart, from 100 MHz up to and including 5 GHz. -/
theorem sweep_fifty_points :
    pyInt npoints = 50
    ∧ sweepFreqs.length = 50
    ∧ (∀ i, i < 50 → sweepFreqs.getD i 0 = F_START + i * F_STEP)
    ∧ sweepFreqs.getD 0 0 = F_START
    ∧ sweepFreqs.getD 49 0 = F_STOP := by
  refine ⟨pyInt_npoints_eq, ?_, ?_, ?_, ?_⟩
  · rw [sweepFreqs_eq, linspace_length]
  · intro i hi
    exact sweepFreqs_getD i hi
  · rw [sweepFreqs_getD 0 (by norm_num)]
    norm_num
  · rw [sweepFreqs_getD 49 (by norm_num)]
    norm_num [F_START, F_STOP, F_STEP]

/-- C5 witness: the last (50th) sweep point evaluates as stated. -/
theorem sweep_fifty_points_witness :
    (49 < 50) ∧ sweepFreqs.getD 49 0 = F_START + (49 : ℕ) * F_STEP :=
  ⟨by norm_num, sweep_fifty_points.2.2.1 49 (by norm_num)⟩

/-- C9 counterexample: the reference frequency actually written in the
adaptive_mesh_refinement call (2.5 GHz, line 155) lies inside the swept
range [F_START, F_STOP], contradicting the claim that it lies outside. -/
theorem refine_frequency_inside_band :
    F_START ≤ refineFrequency ∧ refineFrequency ≤ F_STOP := by
  norm_num [F_START, F_STOP, refineFrequency]

/-- C9 amended: the refinement reference frequency in the source
(2.5 GHz) lies inside the closed swept interval [F_START, F_STOP]; only
the 6 GHz named in the adjacent source comment would lie outside it (and
the refinement call is commented out in any case). -/
theorem refine_frequency_amended :
    F_START ≤ refineFrequency ∧ refineFrequency ≤ F_STOP
    ∧ F_STOP < commentRefineFrequency := by
  norm_num [F_START, F_STOP, refineFrequency, commentRefineFrequency]

/-- C3 (evaluation of the code at the failing point): the script's
executed stage trace never performs adaptive refinement — the
adaptive_mesh_refinement call on line 155 is commented out — although
geometry compilation precedes mesh generation, which precedes the sweep,
which precedes post-processing. -/
theorem script_trace_skips_refinement :
    Stage.adaptiveRefinement ∉ scriptStages
    ∧ scriptStages.indexOf Stage.compileGeometry < scriptStages.indexOf Stage.generateMesh
    ∧ scriptStages.indexOf Stage.generateMesh < scriptStages.indexOf Stage.sweepRun
    ∧ scriptStages.indexOf Stage.sweepRun < scriptStages.indexOf Stage.postProcess := by
  decide

/-! ### Geometry compiler: bounding box and margins (C7), ports in domain (C10) -/

theorem rectSubset_refl (r : Rect2) : RectSubset r r :=
  ⟨le_refl _, le_refl _, le_refl _, le_refl _⟩

theorem rectSubset_trans {a b c : Rect2} (h1 : RectSubset a b) (h2 : RectSubset b c) :
    RectSubset a c :=
  ⟨le_trans h2.1 h1.1, le_trans h1.2.1 h2.2.1,
   le_trans h2.2.2.1 h1.2.2.1, le_trans h1.2.2.2 h2.2.2.2⟩

theorem rectSubset_union_left (a b : Rect2) : RectSubset a (a.union b) :=
  ⟨min_le_left _ _, le_max_left _ _, min_le_left _ _, le_max_left _ _⟩

theorem rectSubset_union_right (a b : Rect2) : RectSubset b (a.union b) :=
  ⟨min_le_right _ _, le_max_right _ _, min_le_right _ _, le_max_right _ _⟩

theorem rectSubset_foldl_union :
    ∀ (rs : List Rect2) (acc r : Rect2), (RectSubset r acc ∨ r ∈ rs) →
      RectSubset r (rs.foldl Rect2.union acc) := by
  intro rs
  induction rs with
  | nil =>
    intro acc r h
    rcases h with h | h
    · exact h
    · exact absurd h (List.not_mem_nil r)
  | cons x xs ih =>
    intro acc r h
    rcases h with h | h
    · exact ih (acc.union x) r (Or.inl (rectSubset_trans h (rectSubset_union_left acc x)))
    · rcases List.mem_cons.mp h with h | h
      · exact ih (acc.union x) r (Or.inl (h ▸ rectSubset_union_right acc x))
      · exact ih (acc.union x) r (Or.inr h)

theorem rectSubset_bboxList (rs : List Rect2) (r : Rect2) (h : r ∈ rs) :
    RectSubset r (bboxList rs) := by
  cases rs with
  | nil => exact absurd h (List.not_mem_nil r)
  | cons x xs =>
    rcases List.mem_cons.mp h with h | h
    · exact rectSubset_foldl_union xs x r (Or.inl (h ▸ rectSubset_refl x))
    · exact rectSubset_foldl_union xs x r (Or.inr h)

theorem expandRect_mono_rect {r s : Rect2} (h : RectSubset r s) (m : Margins) :
    RectSubset (expandRect r m) (expandRect s m) :=
  ⟨sub_le_sub_right h.1 _, add_le_add_right h.2.1 _,
   sub_le_sub_right h.2.2.1 _, add_le_add_right h.2.2.2 _⟩

theorem expandRect_mono_margins (r : Rect2) {m m2 : Margins} (h : MarginsLe m m2) :
    RectSubset (expandRect r m) (expandRect r m2) :=
  ⟨sub_le_sub_left h.1 _, add_le_add_left h.2.2.1 _,
   sub_le_sub_left h.2.2.2 _, add_le_add_left h.2.1 _⟩

/-- C7: for all geometry inputs and non-negative margins, the Solid
Model's bounding box contains every constituent region enlarged by the
margins; the box is monotonic in margin size; and compiled paths do not
depend on the margin choice at all (margins enter only the bounding-box
computation). -/
theorem bounds_margins_properties (cmds : List PathCmd) (segs : List Segment)
    (m m2 : Margins) (hm : MarginsNonneg m) (hle : MarginsLe m m2) :
    (∀ s ∈ segs, RectSubset (expandRect s.bbox m) (determine_bounds segs m))
    ∧ RectSubset (determine_bounds segs m) (determine_bounds segs m2)
    ∧ (buildBoard cmds m).trace = (buildBoard cmds m2).trace := by
  refine ⟨?_, ?_, rfl⟩
  · intro s hs
    exact expandRect_mono_rect
      (rectSubset_bboxList (segs.map Segment.bbox) s.bbox (List.mem_map_of_mem _ hs)) m
  · exact expandRect_mono_margins _ hle

/-- C7 witness: concrete margins on the script's own geometry. -/
theorem bounds_margins_properties_witness :
    (MarginsNonneg ⟨0, 0, 0, 0⟩ ∧ MarginsLe ⟨0, 0, 0, 0⟩ ⟨1, 2, 3, 4⟩)
    ∧ RectSubset (determine_bounds scriptSegs ⟨0, 0, 0, 0⟩)
        (determine_bounds scriptSegs ⟨1, 2, 3, 4⟩)
    ∧ (buildBoard scriptPathCmds ⟨0, 0, 0, 0⟩).trace
        = (buildBoard scriptPathCmds ⟨1, 2, 3, 4⟩).trace := by
  have hm : MarginsNonneg ⟨0, 0, 0, 0⟩ := by norm_num [MarginsNonneg]
  have hle : MarginsLe ⟨0, 0, 0, 0⟩ ⟨1, 2, 3, 4⟩ := by norm_num [MarginsLe]
  exact ⟨⟨hm, hle⟩,
    (bounds_margins_properties scriptPathCmds scriptSegs _ _ hm hle).2.1,
    (bounds_margins_properties scriptPathCmds scriptSegs _ _ hm hle).2.2⟩

theorem pathNodes_script :
    pathNodes scriptPathCmds = [("p1", ((0 : ℚ), (0 : ℚ))), ("p2", ((0 : ℚ), (100 : ℚ)))] := by
  norm_num [pathNodes, scriptPathCmds, stepCmd, initState, TRACK_W, SUB_L]

theorem loadNode_p1 : loadNode scriptPathCmds "p1" = some (0, 0) := by
  rw [loadNode, pathNodes_script]
  rfl

theorem loadNode_p2 : loadNode scriptPathCmds "p2" = some (0, SUB_L) := by
  rw [loadNode, pathNodes_script]
  rfl

theorem scriptBounds_eq : scriptBounds = ⟨-(153 / 2), 153 / 2, 0, 100⟩ := by
  show determine_bounds scriptSegs scriptMargins = _
  norm_num [determine_bounds, scriptSegs, compile_paths, scriptPathCmds, stepCmd,
    initState, expandRect, bboxList, Segment.bbox, scriptMargins, TRACK_W, SUB_L]

/-- C10: the modal port faces fit inside the simulation domain: the port
height 6·SUB_T = 9.3 mm is strictly below the air-box height
3·6·SUB_T = 27.9 mm; the port width 10·TRACK_W = 30 mm is strictly less
than the lateral domain extent produced by the 5·10·TRACK_W/2 = 75 mm
side margins; the stored nodes are p1 = (0,0) and p2 = (0, SUB_L); both
port faces lie within the domain laterally and vertically; and, the top
and bottom margins being zero, the two port faces lie exactly on the
domain boundary at y = 0 and y = SUB_L. -/
theorem ports_fit_domain :
    portHeight = 9.3 ∧ airHeight = 27.9 ∧ portHeight < airHeight
    ∧ portWidth = 30 ∧ scriptMargins.left = 75 ∧ scriptMargins.right = 75
    ∧ scriptMargins.top = 0 ∧ scriptMargins.bottom = 0
    ∧ portWidth < scriptBounds.xmax - scriptBounds.xmin
    ∧ loadNode scriptPathCmds "p1" = some (0, 0)
    ∧ loadNode scriptPathCmds "p2" = some (0, SUB_L)
    ∧ scriptBounds.xmin ≤ (modal_port (0, 0) portHeight portWidth).xmin
    ∧ (modal_port (0, 0) portHeight portWidth).xmax ≤ scriptBounds.xmax
    ∧ (modal_port (0, 0) portHeight portWidth).zmax < domainTopZ
    ∧ scriptBounds.xmin ≤ (modal_port (0, SUB_L) portHeight portWidth).xmin
    ∧ (modal_port (0, SUB_L) portHeight portWidth).xmax ≤ scriptBounds.xmax
    ∧ (modal_port (0, SUB_L) portHeight portWidth).zmax < domainTopZ
    ∧ (modal_port (0, 0) portHeight portWidth).y = scriptBounds.ymin
    ∧ (modal_port (0, SUB_L) portHeight portWidth).y = scriptBounds.ymax := by
  rw [scriptBounds_eq]
  norm_num [portHeight, airHeight, portWidth, scriptMargins, TRACK_W, SUB_T, SUB_L,
    modal_port, domainTopZ, loadNode_p1, loadNode_p2]

/-! ### Sweep error isolation (C2) and solve-result shape (C8) -/

/-- C2: if the Field Solver raises SolveError at a frequency point f0 of
the sweep, that point's grid entry is marked invalid (none) and recorded
against f0, every other frequency point is still solved and present in
the grid (the sweep is not aborted: the grid covers all points), f0 is
reported among the failed points, the failed-point list contains exactly
the frequencies whose solve failed, and the reported count equals the
length of that list. -/
theorem sweep_error_isolated {α : Type} (solve : ℚ → Option α) (freqs : List ℚ)
    (f0 : ℚ) (hmem : f0 ∈ freqs) (hfail : solve f0 = none) :
    (f0, (none : Option α)) ∈ (run_sweep_fallible solve freqs).grid
    ∧ (∀ f ∈ freqs, (f, solve f) ∈ (run_sweep_fallible solve freqs).grid)
    ∧ (run_sweep_fallible solve freqs).grid.length = freqs.length
    ∧ f0 ∈ (run_sweep_fallible solve freqs).failedPoints
    ∧ (∀ f ∈ freqs,
        (f ∈ (run_sweep_fallible solve freqs).failedPoints ↔ solve f = none))
    ∧ (run_sweep_fallible solve freqs).failedCount
        = (run_sweep_fallible solve freqs).failedPoints.length := by
  refine ⟨?_, ?_, ?_, ?_, ?_, rfl⟩
  · have h : (f0, solve f0) ∈ freqs.map (fun f => (f, solve f)) :=
      List.mem_map_of_mem _ hmem
    rw [hfail] at h
    exact h
  · intro f hf
    exact List.mem_map_of_mem _ hf
  · exact List.length_map freqs _
  · exact List.mem_filter.mpr ⟨hmem, by simp [hfail]⟩
  · intro f hf
    constructor
    · intro h
      exact Option.isNone_iff_eq_none.mp (List.mem_filter.mp h).2
    · intro h
      exact List.mem_filter.mpr ⟨hf, by simp [h]⟩

/-- C2 witness: a three-point sweep whose middle point fails. -/
theorem sweep_error_isolated_witness :
    ((2 : ℚ) ∈ [(1 : ℚ), 2, 3] ∧ c2Solve 2 = none)
    ∧ ((2 : ℚ), (none : Option ℚ)) ∈ (run_sweep_fallible c2Solve [1, 2, 3]).grid
    ∧ (run_sweep_fallible c2Solve [1, 2, 3]).grid.length = ([(1 : ℚ), 2, 3]).length
    ∧ (2 : ℚ) ∈ (run_sweep_fallible c2Solve [1, 2, 3]).failedPoints := by
  have hmem : (2 : ℚ) ∈ [(1 : ℚ), 2, 3] := by norm_num
  have hfail : c2Solve 2 = none := by norm_num [c2Solve]
  exact ⟨⟨hmem, hfail⟩,
    (sweep_error_isolated c2Solve [1, 2, 3] 2 hmem hfail).1,
    (sweep_error_isolated c2Solve [1, 2, 3] 2 hmem hfail).2.2.1,
    (sweep_error_isolated c2Solve [1, 2, 3] 2 hmem hfail).2.2.2.1⟩

theorem F_START_mem_sweepFreqs : F_START ∈ sweepFreqs := by
  have hlen : 0 < sweepFreqs.length := by
    rw [sweepFreqs_eq, linspace_length]
    norm_num
  have h0 : sweepFreqs.getD 0 0 = F_START := by
    rw [sweepFreqs_getD 0 (by norm_num)]
    norm_num
  rw [List.getD_eq_getElem sweepFreqs 0 hlen] at h0
  exact h0 ▸ List.getElem_mem hlen

/-- C8: for every frequency point of the sweep, the Solve Result's
S-parameter matrix is square with dimension equal to the number of
defined ports; the script binds exactly two ports, at distinct indices 1
and 2, so the post-processing lookups S(1,1) and S(2,1) are in-bounds. -/
theorem solve_result_square (sij : ℚ → ℕ → ℕ → ℚ × ℚ) (f : ℚ)
    (hf : f ∈ sweepFreqs) :
    numPorts = 2
    ∧ portIndices.Nodup
    ∧ (fieldSolve sij numPorts f).length = numPorts
    ∧ (∀ row ∈ fieldSolve sij numPorts f, row.length = numPorts)
    ∧ (sEntry (fieldSolve sij numPorts f) 1 1).isSome = true
    ∧ (sEntry (fieldSolve sij numPorts f) 2 1).isSome = true := by
  refine ⟨rfl, by decide, rfl, ?_, rfl, rfl⟩
  intro row hrow
  have hm : fieldSolve sij numPorts f
      = [[sij f 0 0, sij f 0 1], [sij f 1 0, sij f 1 1]] := rfl
  rw [hm] at hrow
  rcases List.mem_cons.mp hrow with h | h
  · rw [h]; rfl
  · rcases List.mem_cons.mp h with h | h
    · rw [h]; rfl
    · exact absurd h (List.not_mem_nil row)

/-- C8 witness: at the first sweep frequency, with an arbitrary concrete
entry function, the lookups are valid. -/
theorem solve_result_square_witness :
    (F_START ∈ sweepFreqs)
    ∧ numPorts = 2
    ∧ (sEntry (fieldSolve (fun _ _ _ => (0, 0)) numPorts F_START) 1 1).isSome = true
    ∧ (sEntry (fieldSolve (fun _ _ _ => (0, 0)) numPorts F_START) 2 1).isSome = true :=
  ⟨F_START_mem_sweepFreqs,
   (solve_result_square (fun _ _ _ => (0, 0)) F_START F_START_mem_sweepFreqs).1,
   (solve_result_square (fun _ _ _ => (0, 0)) F_START F_START_mem_sweepFreqs).2.2.2.2.1,
   (solve_result_square (fun _ _ _ => (0, 0)) F_START F_START_mem_sweepFreqs).2.2.2.2.2⟩

/-! ### Adaptive refinement controller (C4, C6) -/

theorem amrGo_head_le {Mesh : Type} (solveErr : Mesh → Option ℚ)
    (refine : Mesh → Mesh) (tol : ℚ) (fuel : ℕ) (lg cand : Mesh) (p x : ℚ)
    (h : ((amrGo solveErr refine tol fuel lg cand (some p)).errors).head? = some x) :
    x ≤ p := by
  cases fuel with
  | zero => simp [amrGo] at h
  | succ n =>
    cases hs : solveErr cand with
    | none => simp [amrGo, hs] at h
    | some e =>
      by_cases hinc : errIncreased (some p) e
      · simp [amrGo, hs, hinc] at h
      · have hpe : ¬ p < e := by simpa [errIncreased] using hinc
        by_cases htol : e < tol
        · simp [amrGo, hs, hinc, htol] at h
          exact h ▸ le_of_not_lt hpe
        · simp [amrGo, hs, hinc, htol] at h
          exact h ▸ le_of_not_lt hpe

theorem amrGo_chain {Mesh : Type} (solveErr : Mesh → Option ℚ)
    (refine : Mesh → Mesh) (tol : ℚ) :
    ∀ (fuel : ℕ) (lg cand : Mesh) (prev : Option ℚ),
      List.Chain' (fun a b => b ≤ a)
        ((amrGo solveErr refine tol fuel lg cand prev).errors) := by
  intro fuel
  induction fuel with
  | zero =>
    intro lg cand prev
    simp [amrGo]
  | succ n ih =>
    intro lg cand prev
    cases hs : solveErr cand with
    | none => simp [amrGo, hs]
    | some e =>
      by_cases hinc : errIncreased prev e
      · simp [amrGo, hs, hinc]
      · by_cases htol : e < tol
        · simp [amrGo, hs, hinc, htol]
        · simp only [amrGo, hs, hinc, htol, Bool.false_eq_true, if_false]
          rw [List.chain'_cons']
          exact ⟨fun y hy => amrGo_head_le solveErr refine tol n cand (refine cand) e y hy,
                 ih cand (refine cand) (some e)⟩

theorem amrGo_len {Mesh : Type} (solveErr : Mesh → Option ℚ)
    (refine : Mesh → Mesh) (tol : ℚ) :
    ∀ (fuel : ℕ) (lg cand : Mesh) (prev : Option ℚ),
      ((amrGo solveErr refine tol fuel lg cand prev).errors).length ≤ fuel := by
  intro fuel
  induction fuel with
  | zero =>
    intro lg cand prev
    simp [amrGo]
  | succ n ih =>
    intro lg cand prev
    cases hs : solveErr cand with
    | none => simp [amrGo, hs]
    | some e =>
      by_cases hinc : errIncreased prev e
      · simp [amrGo, hs, hinc]
      · by_cases htol : e < tol
        · simp [amrGo, hs, hinc, htol]
        · simp only [amrGo, hs, hinc, htol, Bool.false_eq_true, if_false,
            List.length_cons]
          exact Nat.succ_le_succ (ih cand (refine cand) (some e))

theorem amrGo_last_lt_tol_converged {Mesh : Type} (solveErr : Mesh → Option ℚ)
    (refine : Mesh → Mesh) (tol : ℚ) :
    ∀ (fuel : ℕ) (lg cand : Mesh) (prev : Option ℚ) (x : ℚ),
      ((amrGo solveErr refine tol fuel lg cand prev).errors).getLast? = some x →
      x < tol →
      (amrGo solveErr refine tol fuel lg cand prev).status = .converged := by
  intro fuel
  induction fuel with
  | zero =>
    intro lg cand prev x h _
    simp [amrGo] at h
  | succ n ih =>
    intro lg cand prev x h hx
    cases hs : solveErr cand with
    | none => simp [amrGo, hs] at h
    | some e =>
      by_cases hinc : errIncreased prev e
      · simp [amrGo, hs, hinc] at h
      · by_cases htol : e < tol
        · simp [amrGo, hs, hinc, htol]
        · simp only [amrGo, hs, hinc, htol, Bool.false_eq_true, if_false] at h ⊢
          cases hr : (amrGo solveErr refine tol n cand (refine cand) (some e)).errors with
          | nil =>
            rw [hr] at h
            simp at h
            exact absurd (h ▸ hx) htol
          | cons a t =>
            rw [hr, List.getLast?_cons_cons] at h
            exact ih cand (refine cand) (some e) x (hr ▸ h) hx

theorem amrGo_budget_converged {Mesh : Type} (solveErr : Mesh → Option ℚ)
    (refine : Mesh → Mesh) (tol : ℚ) :
    ∀ (fuel : ℕ) (lg cand : Mesh) (prev : Option ℚ),
      ((amrGo solveErr refine tol fuel lg cand prev).errors).length = fuel →
      (amrGo solveErr refine tol fuel lg cand prev).status = .converged := by
  intro fuel
  induction fuel with
  | zero =>
    intro lg cand prev _
    simp [amrGo]
  | succ n ih =>
    intro lg cand prev h
    cases hs : solveErr cand with
    | none => simp [amrGo, hs] at h
    | some e =>
      by_cases hinc : errIncreased prev e
      · simp [amrGo, hs, hinc] at h
      · by_cases htol : e < tol
        · simp [amrGo, hs, hinc, htol]
        · simp only [amrGo, hs, hinc, htol, Bool.false_eq_true, if_false,
            List.length_cons] at h ⊢
          exact ih cand (refine cand) (some e) (Nat.succ_injective h)

/-- C6: in every execution of the Adaptive Refinement Controller, the
sequence of accepted global error estimates is non-increasing from one
iteration to the next (otherwise refinement halts), the loop performs at
most maxIter iterations (it always terminates), the result is either
Converged or an early termination, and the controller ends in the
Converged state whenever the last accepted error estimate falls below
the convergence tolerance, and also whenever the maximum iteration count
is reached (all maxIter iterations were performed). -/
theorem amr_monotone_and_terminates {Mesh : Type} (solveErr : Mesh → Option ℚ)
    (refine : Mesh → Mesh) (tol : ℚ) (maxIter : ℕ) (m0 : Mesh) :
    List.Chain' (fun a b => b ≤ a)
        (adaptive_mesh_refinement solveErr refine tol maxIter m0).errors
    ∧ (adaptive_mesh_refinement solveErr refine tol maxIter m0).errors.length ≤ maxIter
    ∧ ((adaptive_mesh_refinement solveErr refine tol maxIter m0).status = .converged
        ∨ (adaptive_mesh_refinement solveErr refine tol maxIter m0).status
            = .earlyTerminated)
    ∧ (∀ x, (adaptive_mesh_refinement solveErr refine tol maxIter m0).errors.getLast?
          = some x → x < tol →
        (adaptive_mesh_refinement solveErr refine tol maxIter m0).status = .converged)
    ∧ ((adaptive_mesh_refinement solveErr refine tol maxIter m0).errors.length = maxIter →
        (adaptive_mesh_refinement solveErr refine tol maxIter m0).status = .converged) := by
  refine ⟨amrGo_chain solveErr refine tol maxIter m0 m0 none,
          amrGo_len solveErr refine tol maxIter m0 m0 none, ?_,
          fun x h hx =>
            amrGo_last_lt_tol_converged solveErr refine tol maxIter m0 m0 none x h hx,
          fun h => amrGo_budget_converged solveErr refine tol maxIter m0 m0 none h⟩
  cases h : (adaptive_mesh_refinement solveErr refine tol maxIter m0).status with
  | converged => exact Or.inl rfl
  | earlyTerminated => exact Or.inr rfl

/-- C6 witness: a run with error estimates 8, 7, 6, 5 against tolerance
6 converges with its last accepted error estimate below tolerance, and a
run with constant error estimate 7 against tolerance 5 uses its entire
3-iteration budget and also ends Converged. -/
theorem amr_monotone_and_terminates_witness :
    ((adaptive_mesh_refinement (fun m => some (c6ErrTab m)) Nat.succ 6 10 0).errors.getLast?
        = some 5)
    ∧ ((5 : ℚ) < 6)
    ∧ (adaptive_mesh_refinement (fun m => some (c6ErrTab m)) Nat.succ 6 10 0).status
        = RefineStatus.converged
    ∧ (adaptive_mesh_refinement (fun _ : ℕ => some (7 : ℚ)) Nat.succ 5 3 0).errors.length = 3
    ∧ (adaptive_mesh_refinement (fun _ : ℕ => some (7 : ℚ)) Nat.succ 5 3 0).status
        = RefineStatus.converged := by
  have h1 : (adaptive_mesh_refinement (fun m => some (c6ErrTab m)) Nat.succ 6 10 0).errors.getLast?
      = some 5 := by decide
  have h2 : (5 : ℚ) < 6 := by norm_num
  have h3 : (adaptive_mesh_refinement (fun _ : ℕ => some (7 : ℚ)) Nat.succ 5 3 0).errors.length
      = 3 := by decide
  exact ⟨h1, h2,
    (amr_monotone_and_terminates (fun m => some (c6ErrTab m)) Nat.succ 6 10 0).2.2.2.1 5 h1 h2,
    h3,
    (amr_monotone_and_terminates (fun _ : ℕ => some (7 : ℚ)) Nat.succ 5 3 0).2.2.2.2 h3⟩

theorem amrGo_fail_retains {Mesh : Type} (solveErr : Mesh → Option ℚ)
    (refine : Mesh → Mesh) (tol : ℚ) :
    ∀ (k : ℕ) (e : ℕ → ℚ) (fuel : ℕ) (lg cand : Mesh) (prev : Option ℚ),
      (∀ j, j < k → solveErr (refine^[j] cand) = some (e j)) →
      (∀ j, j < k → tol ≤ e j) →
      (∀ j, j + 1 < k → e (j + 1) ≤ e j) →
      solveErr (refine^[k] cand) = none →
      k < fuel →
      (∀ p, prev = some p → 0 < k → ¬ p < e 0) →
      (amrGo solveErr refine tol fuel lg cand prev).status = .earlyTerminated
      ∧ (amrGo solveErr refine tol fuel lg cand prev).mesh
          = (if k = 0 then lg else refine^[k - 1] cand) := by
  intro k
  induction k with
  | zero =>
    intro e fuel lg cand prev _ _ _ hfail hk _
    obtain ⟨n, rfl⟩ : ∃ n, fuel = n + 1 :=
      ⟨fuel - 1, (Nat.succ_pred_eq_of_pos hk).symm⟩
    have hc : solveErr cand = none := by simpa using hfail
    simp [amrGo, hc]
  | succ k ih =>
    intro e fuel lg cand prev hsolve hbig hmono hfail hk hprev
    obtain ⟨n, rfl⟩ : ∃ n, fuel = n + 1 :=
      ⟨fuel - 1, (Nat.succ_pred_eq_of_pos (Nat.lt_of_le_of_lt (Nat.zero_le _) hk)).symm⟩
    have hc : solveErr cand = some (e 0) := by
      simpa using hsolve 0 (Nat.succ_pos k)
    have hni : errIncreased prev (e 0) = false := by
      cases prev with
      | none => rfl
      | some p =>
        simpa [errIncreased] using hprev p rfl (Nat.succ_pos k)
    have hnt : ¬ e 0 < tol := not_lt.mpr (hbig 0 (Nat.succ_pos k))
    have hrec := ih (fun j => e (j + 1)) n cand (refine cand) (some (e 0))
      (fun j hj => by
        rw [← Function.iterate_succ_apply]
        exact hsolve (j + 1) (Nat.succ_lt_succ hj))
      (fun j hj => hbig (j + 1) (Nat.succ_lt_succ hj))
      (fun j hj => hmono (j + 1) (Nat.succ_lt_succ hj))
      (by
        rw [← Function.iterate_succ_apply]
        exact hfail)
      (Nat.lt_of_succ_lt_succ hk)
      (fun p hp hpos => by
        obtain rfl : e 0 = p := Option.some.inj hp
        exact not_lt.mpr (hmono 0 (Nat.succ_lt_succ hpos)))
    constructor
    · simp only [amrGo, hc, hni, Bool.false_eq_true, if_false, hnt]
      exact hrec.1
    · simp only [amrGo, hc, hni, Bool.false_eq_true, if_false, hnt]
      rw [hrec.2]
      by_cases hk0 : k = 0
      · subst hk0
        simp
      · have hk1 : k - 1 + 1 = k := Nat.succ_pred_eq_of_pos (Nat.pos_of_ne_zero hk0)
        simp only [hk0, if_false, Nat.succ_ne_zero, Nat.succ_sub_one]
        rw [← Function.iterate_succ_apply, ← hk1]
        simp [hk1]

/-- C4: whenever some iteration's solve fails during adaptive refinement
(the first k iterations solve with above-tolerance, non-increasing error
estimates and iteration k's solve raises SolveError), the controller
returns the previously accepted mesh, reports the warning-level
earlyTerminated status — which is distinguishable from converged — and a
subsequent sweep over the retained mesh still produces a grid entry for
every frequency point (the pipeline is not aborted). -/
theorem amr_failure_keeps_previous_mesh {Mesh : Type} (solveErr : Mesh → Option ℚ)
    (refine : Mesh → Mesh) (tol : ℚ) (maxIter k : ℕ) (m0 : Mesh) (e : ℕ → ℚ)
    (hsolve : ∀ j, j < k → solveErr (refine^[j] m0) = some (e j))
    (hbig : ∀ j, j < k → tol ≤ e j)
    (hmono : ∀ j, j + 1 < k → e (j + 1) ≤ e j)
    (hfail : solveErr (refine^[k] m0) = none)
    (hk : k < maxIter) :
    (adaptive_mesh_refinement solveErr refine tol maxIter m0).status = .earlyTerminated
    ∧ (adaptive_mesh_refinement solveErr refine tol maxIter m0).status ≠ .converged
    ∧ (adaptive_mesh_refinement solveErr refine tol maxIter m0).mesh = refine^[k - 1] m0
    ∧ ∀ (β : Type) (sweepSolve : Mesh → ℚ → Option β) (freqs : List ℚ),
        (run_sweep_fallible
          (sweepSolve (adaptive_mesh_refinement solveErr refine tol maxIter m0).mesh)
          freqs).grid.length = freqs.length := by
  have h := amrGo_fail_retains solveErr refine tol k e maxIter m0 m0 none
    hsolve hbig hmono hfail hk (fun p hp _ => by exact Option.noConfusion hp)
  refine ⟨h.1, ?_, ?_, ?_⟩
  · intro hcontr
    rw [show (adaptive_mesh_refinement solveErr refine tol maxIter m0).status
        = RefineStatus.earlyTerminated from h.1] at hcontr
    exact RefineStatus.noConfusion hcontr
  · rw [show (adaptive_mesh_refinement solveErr refine tol maxIter m0).mesh
        = (if k = 0 then m0 else refine^[k - 1] m0) from h.2]
    by_cases hk0 : k = 0
    · subst hk0
      simp
    · simp [hk0]
  · intro β sweepSolve freqs
    exact List.length_map freqs _

/-- C4 witness: error estimates 10, 9 then a SolveError at the third
mesh; the second mesh (one refinement step from the initial mesh) is
retained, the status is earlyTerminated, and a subsequent two-point
sweep has a full grid. -/
theorem amr_failure_keeps_previous_mesh_witness :
    (adaptive_mesh_refinement c4SolveTab Nat.succ 1 5 0).status
        = RefineStatus.earlyTerminated
    ∧ (adaptive_mesh_refinement c4SolveTab Nat.succ 1 5 0).mesh = Nat.succ^[2 - 1] 0
    ∧ (run_sweep_fallible
        (c4Sweep (adaptive_mesh_refinement c4SolveTab Nat.succ 1 5 0).mesh)
        [(1 : ℚ), 2]).grid.length = ([(1 : ℚ), 2]).length := by
  have h := amr_failure_keeps_previous_mesh c4SolveTab Nat.succ 1 5 2 0 c4ErrTab
    (by decide) (by decide)
    (by
      intro j hj
      have hj0 : j = 0 := by omega
      subst hj0
      norm_num [c4ErrTab])
    (by decide) (by decide)
  exact ⟨h.1, h.2.2.1, h.2.2.2 ℚ c4Sweep [(1 : ℚ), 2]⟩

end MLineTest
